import Mathlib

/-!
Verification of the `client_model` packaging fragment and of the metric-model
wire contract its specification describes.

The repository's only source file is `client_model/setup.py`, a setuptools
manifest; it is embedded below as `setupPy`.  The metric data model and its
binary encode/decode pair are not present under the repository source, so they
are modelled from the specification: a protobuf-style wire format with
varint-tagged fields, little-endian 64-bit scalars holding IEEE-754 bit
patterns, and length-delimited submessages, wrapped in a top-level length
prefix so that truncation is detectable.
-/

/-! ## Byte-level primitives -/

/-- Modelled from the spec: base-128 varint encoding (low 7 bits first, high
bit of a byte set when more bytes follow).  `fuel` bounds the recursion; any
`fuel ≥ n` yields the canonical encoding of `n`. -/
def encodeVarintAux : Nat → Nat → List Nat
  | 0, n => [n % 128]
  | fuel + 1, n => if n < 128 then [n] else (n % 128 + 128) :: encodeVarintAux fuel (n / 128)

/-- Modelled from the spec: canonical varint encoding of a natural number. -/
def encodeVarint (n : Nat) : List Nat :=
  encodeVarintAux n n

/-- Modelled from the spec: varint decoding; returns the value and the
remaining bytes, or `none` when the input ends inside a varint. -/
def parseVarint : List Nat → Option (Nat × List Nat)
  | [] => none
  | b :: l =>
    if b < 128 then some (b, l)
    else
      match parseVarint l with
      | some (n, r) => some (b - 128 + 128 * n, r)
      | none => none

/-- Modelled from the spec: little-endian 8-byte encoding of a 64-bit scalar
(an IEEE-754 double is carried as its 64-bit bit pattern). -/
def toLE8 (n : Nat) : List Nat :=
  [n % 256, n / 256 % 256, n / 256 ^ 2 % 256, n / 256 ^ 3 % 256,
   n / 256 ^ 4 % 256, n / 256 ^ 5 % 256, n / 256 ^ 6 % 256, n / 256 ^ 7 % 256]

/-- Modelled from the spec: reads an 8-byte little-endian 64-bit scalar,
returning the value and the remaining bytes. -/
def readF64 : List Nat → Option (Nat × List Nat)
  | b0 :: b1 :: b2 :: b3 :: b4 :: b5 :: b6 :: b7 :: r =>
    some (b0 + 256 * b1 + 256 ^ 2 * b2 + 256 ^ 3 * b3 + 256 ^ 4 * b4 +
          256 ^ 5 * b5 + 256 ^ 6 * b6 + 256 ^ 7 * b7, r)
  | _ => none

theorem parseVarint_encodeVarintAux (fuel : Nat) :
    ∀ n r, n ≤ fuel → parseVarint (encodeVarintAux fuel n ++ r) = some (n, r) := by
  induction fuel with
  | zero =>
    intro n r hn
    interval_cases n
    simp [encodeVarintAux, parseVarint]
  | succ fuel ih =>
    intro n r hn
    by_cases h : n < 128
    · simp [encodeVarintAux, h, parseVarint]
    · have hdiv : n / 128 ≤ fuel := by
        have : n / 128 < n := Nat.div_lt_self (by omega) (by omega)
        omega
      have hrec := ih (n / 128) r hdiv
      simp only [encodeVarintAux, h, if_false, List.cons_append, parseVarint]
      have hb : ¬ (n % 128 + 128 < 128) := by omega
      simp only [hb, if_false, hrec]
      have : n % 128 + 128 - 128 + 128 * (n / 128) = n := by omega
      rw [this]

theorem parseVarint_encodeVarint (n : Nat) (r : List Nat) :
    parseVarint (encodeVarint n ++ r) = some (n, r) :=
  parseVarint_encodeVarintAux n n r (Nat.le_refl n)

theorem encodeVarintAux_ne_nil (fuel n : Nat) : encodeVarintAux fuel n ≠ [] := by
  cases fuel with
  | zero => simp [encodeVarintAux]
  | succ fuel =>
    by_cases h : n < 128 <;> simp [encodeVarintAux, h]

theorem encodeVarint_ne_nil (n : Nat) : encodeVarint n ≠ [] :=
  encodeVarintAux_ne_nil n n

theorem readF64_toLE8 (n : Nat) (r : List Nat) (h : n < 2 ^ 64) :
    readF64 (toLE8 n ++ r) = some (n, r) := by
  simp only [toLE8, List.cons_append, List.nil_append, readF64]
  congr 2
  omega

/-! ## Raw wire fields -/

/-- Modelled from the spec: the payload of one numbered wire field — a varint
scalar, a 64-bit scalar, or a length-delimited chunk. -/
inductive RawVal
  | vint (n : Nat)
  | f64 (n : Nat)
  | chunk (bs : List Nat)
  deriving DecidableEq, Repr

/-- A numbered, typed wire field: field number paired with its payload. -/
abbrev RawField := Nat × RawVal

/-- Modelled from the spec: serialization of one field — a varint tag
`8 * fieldNumber + wireType` followed by the payload (wire types 0 varint,
1 64-bit, 2 length-delimited). -/
def encodeRaw : RawField → List Nat
  | (fn, .vint n) => encodeVarint (8 * fn) ++ encodeVarint n
  | (fn, .f64 n) => encodeVarint (8 * fn + 1) ++ toLE8 n
  | (fn, .chunk bs) => encodeVarint (8 * fn + 2) ++ encodeVarint bs.length ++ bs

/-- Concatenated serialization of a list of fields (a message body). -/
def encFields : List RawField → List Nat
  | [] => []
  | f :: fs => encodeRaw f ++ encFields fs

/-- A 64-bit scalar payload must carry a 64-bit pattern; other payloads are
unconstrained. -/
def wfRawVal : RawVal → Bool
  | .f64 n => n < 2 ^ 64
  | _ => true

/-- Modelled from the spec: parses one wire field (tag varint, then the
payload selected by the wire type), returning the field and the remaining
bytes.  Fails on truncation or an unsupported wire type. -/
def parseOneField (l : List Nat) : Option (RawField × List Nat) :=
  match parseVarint l with
  | none => none
  | some (tag, r1) =>
    if tag % 8 = 0 then
      match parseVarint r1 with
      | none => none
      | some (n, r2) => some ((tag / 8, RawVal.vint n), r2)
    else if tag % 8 = 1 then
      match readF64 r1 with
      | none => none
      | some (n, r2) => some ((tag / 8, RawVal.f64 n), r2)
    else if tag % 8 = 2 then
      match parseVarint r1 with
      | none => none
      | some (len, r2) =>
        if len ≤ r2.length then some ((tag / 8, RawVal.chunk (r2.take len)), r2.drop len)
        else none
    else none

/-- Modelled from the spec: parses a message body into its list of raw
fields, failing on truncation inside a field or on an unsupported wire type.
`fuel` bounds the number of fields; each field consumes at least one byte, so
`fuel = length of the input` always suffices. -/
def parseRawFields : Nat → List Nat → Option (List RawField)
  | 0, l => if l = [] then some [] else none
  | fuel + 1, l =>
    if l = [] then some []
    else
      match parseOneField l with
      | none => none
      | some (f, rest) => (parseRawFields fuel rest).map (fun fs => f :: fs)

theorem parseRawFields_nil (fuel : Nat) : parseRawFields fuel [] = some [] := by
  cases fuel <;> simp [parseRawFields]

theorem encodeRaw_ne_nil (f : RawField) : encodeRaw f ≠ [] := by
  obtain ⟨fn, v⟩ := f
  cases v <;>
    simp only [encodeRaw, List.append_assoc] <;>
    exact fun h => encodeVarint_ne_nil _ (List.append_eq_nil.mp h).1

theorem parseOneField_encodeRaw (fn : Nat) (v : RawVal) (r : List Nat)
    (hv : wfRawVal v = true) :
    parseOneField (encodeRaw (fn, v) ++ r) = some ((fn, v), r) := by
  cases v with
  | vint n =>
    have h8 : 8 * fn % 8 = 0 := Nat.mul_mod_right 8 fn
    have hd : 8 * fn / 8 = fn := Nat.mul_div_cancel_left fn (by omega)
    simp [parseOneField, encodeRaw, List.append_assoc, parseVarint_encodeVarint, h8, hd]
  | f64 n =>
    have hn : n < 2 ^ 64 := by simpa [wfRawVal] using hv
    have h8 : (8 * fn + 1) % 8 = 1 := by omega
    have hd : (8 * fn + 1) / 8 = fn := by omega
    simp [parseOneField, encodeRaw, List.append_assoc, parseVarint_encodeVarint, h8, hd,
      readF64_toLE8 n r hn]
  | chunk bs =>
    have h8 : (8 * fn + 2) % 8 = 2 := by omega
    have hd : (8 * fn + 2) / 8 = fn := by omega
    have hle : bs.length ≤ (bs ++ r).length := by simp
    simp [parseOneField, encodeRaw, List.append_assoc, parseVarint_encodeVarint, h8, hd,
      hle, List.take_left, List.drop_left]

theorem parseRawFields_step (fn : Nat) (v : RawVal) (r : List Nat) (fuel : Nat)
    (hv : wfRawVal v = true) :
    parseRawFields (fuel + 1) (encodeRaw (fn, v) ++ r) =
      (parseRawFields fuel r).map (fun fs => (fn, v) :: fs) := by
  have hne : encodeRaw (fn, v) ++ r ≠ [] := by
    intro h
    exact encodeRaw_ne_nil _ (List.append_eq_nil.mp h).1
  rw [parseRawFields, if_neg hne, parseOneField_encodeRaw fn v r hv]

theorem parseRawFields_encFields (fs : List RawField) :
    ∀ k, (∀ f ∈ fs, wfRawVal f.2 = true) →
      parseRawFields (fs.length + k) (encFields fs) = some fs := by
  induction fs with
  | nil => intro k _; simpa using parseRawFields_nil k
  | cons f fs ih =>
    intro k hwf
    obtain ⟨fn, v⟩ := f
    have hlen : ((fn, v) :: fs).length + k = (fs.length + k) + 1 := by
      simp [List.length_cons]; omega
    rw [hlen]
    show parseRawFields ((fs.length + k) + 1) (encodeRaw (fn, v) ++ encFields fs) = _
    rw [parseRawFields_step fn v (encFields fs) (fs.length + k)
      (hwf (fn, v) (by simp))]
    rw [ih k (fun g hg => hwf g (by simp [hg]))]
    rfl

theorem length_encFields_ge (fs : List RawField) : fs.length ≤ (encFields fs).length := by
  induction fs with
  | nil => simp [encFields]
  | cons f fs ih =>
    have h1 : 1 ≤ (encodeRaw f).length := by
      cases h : encodeRaw f with
      | nil => exact absurd h (encodeRaw_ne_nil f)
      | cons b bs => simp
    simp only [encFields, List.length_append, List.length_cons]
    omega

/-- Parses a complete message body into its fields with the canonical fuel. -/
def decodeMsg (l : List Nat) : Option (List RawField) :=
  parseRawFields l.length l

theorem decodeMsg_encFields (fs : List RawField)
    (hwf : ∀ f ∈ fs, wfRawVal f.2 = true) :
    decodeMsg (encFields fs) = some fs := by
  have h := parseRawFields_encFields fs ((encFields fs).length - fs.length) hwf
  rwa [Nat.add_sub_cancel' (length_encFields_ge fs)] at h

theorem parseVarint_take_encodeVarintAux (fuel : Nat) :
    ∀ n k, n ≤ fuel → k < (encodeVarintAux fuel n).length →
      parseVarint ((encodeVarintAux fuel n).take k) = none := by
  induction fuel with
  | zero =>
    intro n k hn hk
    interval_cases n
    simp only [encodeVarintAux, List.length_cons, List.length_nil] at hk
    interval_cases k
    simp [parseVarint]
  | succ fuel ih =>
    intro n k hn hk
    by_cases h : n < 128
    · simp only [encodeVarintAux, h, if_true, List.length_cons, List.length_nil] at hk
      interval_cases k
      simp [parseVarint]
    · simp only [encodeVarintAux, h, if_false] at hk ⊢
      cases k with
      | zero => simp [parseVarint]
      | succ j =>
        simp only [List.length_cons] at hk
        have hdiv : n / 128 ≤ fuel := by
          have : n / 128 < n := Nat.div_lt_self (by omega) (by omega)
          omega
        have hrec := ih (n / 128) j hdiv (by omega)
        simp only [List.take_succ_cons, parseVarint]
        have hb : ¬ (n % 128 + 128 < 128) := by omega
        simp [hb, hrec]

theorem parseVarint_take_encodeVarint (n k : Nat) (hk : k < (encodeVarint n).length) :
    parseVarint ((encodeVarint n).take k) = none :=
  parseVarint_take_encodeVarintAux n n k (Nat.le_refl n) hk

/-! ## Metric data model

Modelled from the spec: MetricFamily / Metric / LabelPair with a `type` drawn
from {COUNTER, GAUGE, SUMMARY, UNTYPED, HISTOGRAM}, carried on the wire as the
enum values 0, 1, 2, 3, 4.  Doubles are carried as their IEEE-754 64-bit
patterns; `timestamp_ms` is a signed 64-bit integer, optional. -/

/-- A name/value string pair (strings are byte strings). -/
structure LabelPair where
  name : List Nat
  value : List Nat
  deriving DecidableEq, Repr

/-- A Summary payload entry: rank and observed value, both 64-bit doubles. -/
structure Quantile where
  quantile : Nat
  value : Nat
  deriving DecidableEq, Repr

/-- A Histogram payload entry: cumulative count and upper bound. -/
structure Bucket where
  cumulativeCount : Nat
  upperBound : Nat
  deriving DecidableEq, Repr

/-- Summary payload: count, sum, ordered quantile sequence. -/
structure SummaryData where
  sampleCount : Nat
  sampleSum : Nat
  quantiles : List Quantile
  deriving DecidableEq, Repr

/-- Histogram payload: count, sum, ordered bucket sequence. -/
structure HistogramData where
  sampleCount : Nat
  sampleSum : Nat
  buckets : List Bucket
  deriving DecidableEq, Repr

/-- Exactly one value payload per metric, whose shape depends on the family
type: a single double for COUNTER/GAUGE/UNTYPED, a Summary payload for
SUMMARY, a Histogram payload for HISTOGRAM. -/
inductive Payload
  | value (v : Nat)
  | summary (s : SummaryData)
  | histogram (h : HistogramData)
  deriving DecidableEq, Repr

/-- One labeled data point with an optional millisecond timestamp. -/
structure Metric where
  labels : List LabelPair
  payload : Payload
  timestampMs : Option Int
  deriving DecidableEq, Repr

/-- A named group of metrics sharing one type (enum value) and help text. -/
structure MetricFamily where
  name : List Nat
  help : List Nat
  type_ : Nat
  metrics : List Metric
  deriving DecidableEq, Repr

/-! ## Well-formedness -/

/-- A 64-bit scalar (IEEE-754 double bit pattern or uint64). -/
def wfF64 (n : Nat) : Bool := n < 2 ^ 64

/-- A byte string: every entry below 256. -/
def wfBytes (l : List Nat) : Bool := l.all (fun b => b < 256)

/-- Whether a payload's shape matches the declared family type
(0 COUNTER, 1 GAUGE, 2 SUMMARY, 3 UNTYPED, 4 HISTOGRAM). -/
def payloadMatches (t : Nat) : Payload → Bool
  | .value _ => t == 0 || t == 1 || t == 3
  | .summary _ => t == 2
  | .histogram _ => t == 4

def wfPayload : Payload → Bool
  | .value v => wfF64 v
  | .summary s =>
    decide (s.sampleCount < 2 ^ 64) && wfF64 s.sampleSum &&
      s.quantiles.all (fun q => wfF64 q.quantile && wfF64 q.value)
  | .histogram h =>
    decide (h.sampleCount < 2 ^ 64) && wfF64 h.sampleSum &&
      h.buckets.all (fun b => decide (b.cumulativeCount < 2 ^ 64) && wfF64 b.upperBound)

def wfTs : Option Int → Bool
  | none => true
  | some t => decide (-(2 ^ 63 : Int) ≤ t) && decide (t < 2 ^ 63)

def wfMetric (t : Nat) (mt : Metric) : Bool :=
  mt.labels.all (fun lp => wfBytes lp.name && wfBytes lp.value) &&
    payloadMatches t mt.payload && wfPayload mt.payload && wfTs mt.timestampMs

/-- A valid MetricFamily: type in the fixed enum set, byte strings are bytes,
every metric's payload shape matches the type, all scalars fit in 64 bits. -/
def wfFamily (m : MetricFamily) : Bool :=
  decide (m.type_ ≤ 4) && wfBytes m.name && wfBytes m.help &&
    m.metrics.all (wfMetric m.type_)

/-! ## Encoding -/

/-- int64 carried on the wire as a varint of its value mod 2^64. -/
def natOfInt64 (t : Int) : Nat := (t % (2 ^ 64 : Int)).toNat

/-- Reads an int64 back from its varint value. -/
def int64OfNat (n : Nat) : Int :=
  if n % 2 ^ 64 < 2 ^ 63 then ((n % 2 ^ 64 : Nat) : Int)
  else ((n % 2 ^ 64 : Nat) : Int) - 2 ^ 64

def fieldsOfLabel (lp : LabelPair) : List RawField :=
  [(1, RawVal.chunk lp.name), (2, RawVal.chunk lp.value)]

/-- LabelPair submessage: field 1 name, field 2 value. -/
def encLabelMsg (lp : LabelPair) : List Nat := encFields (fieldsOfLabel lp)

def fieldsOfSimple (v : Nat) : List RawField := [(1, RawVal.f64 v)]

/-- Counter/Gauge/Untyped submessage: field 1 the double value. -/
def encSimpleMsg (v : Nat) : List Nat := encFields (fieldsOfSimple v)

def fieldsOfQuantile (q : Quantile) : List RawField :=
  [(1, RawVal.f64 q.quantile), (2, RawVal.f64 q.value)]

/-- Quantile submessage: field 1 rank, field 2 value. -/
def encQuantileMsg (q : Quantile) : List Nat := encFields (fieldsOfQuantile q)

def fieldsOfBucket (b : Bucket) : List RawField :=
  [(1, RawVal.vint b.cumulativeCount), (2, RawVal.f64 b.upperBound)]

/-- Bucket submessage: field 1 cumulative count, field 2 upper bound. -/
def encBucketMsg (b : Bucket) : List Nat := encFields (fieldsOfBucket b)

def fieldsOfSummary (s : SummaryData) : List RawField :=
  (1, RawVal.vint s.sampleCount) :: (2, RawVal.f64 s.sampleSum) ::
    s.quantiles.map (fun q => (3, RawVal.chunk (encQuantileMsg q)))

/-- Summary submessage: field 1 count, field 2 sum, field 3 repeated quantiles. -/
def encSummaryMsg (s : SummaryData) : List Nat := encFields (fieldsOfSummary s)

def fieldsOfHistogram (h : HistogramData) : List RawField :=
  (1, RawVal.vint h.sampleCount) :: (2, RawVal.f64 h.sampleSum) ::
    h.buckets.map (fun b => (3, RawVal.chunk (encBucketMsg b)))

/-- Histogram submessage: field 1 count, field 2 sum, field 3 repeated buckets. -/
def encHistogramMsg (h : HistogramData) : List Nat := encFields (fieldsOfHistogram h)

/-- The Metric field number that carries the payload: gauge 2, counter 3,
summary 4, untyped 5, histogram 7. -/
def payloadFieldNum (t : Nat) : Payload → Nat
  | .value _ => if t = 0 then 3 else if t = 1 then 2 else 5
  | .summary _ => 4
  | .histogram _ => 7

def payloadChunk : Payload → List Nat
  | .value v => encSimpleMsg v
  | .summary s => encSummaryMsg s
  | .histogram h => encHistogramMsg h

/-- An absent timestamp is omitted entirely; a present one is field 6. -/
def tsFields : Option Int → List RawField
  | none => []
  | some t => [(6, RawVal.vint (natOfInt64 t))]

def fieldsOfMetric (t : Nat) (mt : Metric) : List RawField :=
  mt.labels.map (fun lp => (1, RawVal.chunk (encLabelMsg lp))) ++
    [(payloadFieldNum t mt.payload, RawVal.chunk (payloadChunk mt.payload))] ++
    tsFields mt.timestampMs

/-- Metric submessage: field 1 repeated labels, one payload field, field 6
timestamp when present. -/
def encMetricMsg (t : Nat) (mt : Metric) : List Nat := encFields (fieldsOfMetric t mt)

def fieldsOfFamily (m : MetricFamily) : List RawField :=
  (1, RawVal.chunk m.name) :: (2, RawVal.chunk m.help) :: (3, RawVal.vint m.type_) ::
    m.metrics.map (fun mt => (4, RawVal.chunk (encMetricMsg m.type_ mt)))

/-- MetricFamily message body: field 1 name, field 2 help, field 3 type,
field 4 repeated metrics. -/
def encFamilyBody (m : MetricFamily) : List Nat := encFields (fieldsOfFamily m)

/-- The top-level message is wrapped in a length prefix so that truncation of
the byte stream is always detectable. -/
def wrapBody (body : List Nat) : List Nat := encodeVarint body.length ++ body

/-- Modelled from the spec: the deterministic byte sequence for a family. -/
def encodeBytes (m : MetricFamily) : List Nat := wrapBody (encFamilyBody m)

inductive EncodingError
  | badType
  | payloadMismatch
  deriving DecidableEq, Repr

inductive DecodingError
  | truncated
  | trailingData
  | malformed
  | missingField
  | unknownType
  | payloadMismatch
  deriving DecidableEq, Repr

/-- Modelled from the spec: `encode(MetricFamily) -> bytes`.  Fails with
`EncodingError` when `type` is outside the fixed enum set or a metric's
payload shape does not match `type`; never silently coerces. -/
def encode (m : MetricFamily) : Except EncodingError (List Nat) :=
  if 5 ≤ m.type_ then .error .badType
  else if m.metrics.all (fun mt => payloadMatches m.type_ mt.payload) then
    .ok (encodeBytes m)
  else .error .payloadMismatch

/-! ## Decoding -/

/-- Folds an Except-valued step over a field list, stopping at the first
error. -/
def foldE {σ : Type} (step : σ → RawField → Except DecodingError σ) :
    List RawField → σ → Except DecodingError σ
  | [], acc => .ok acc
  | f :: fs, acc =>
    match step acc f with
    | .error e => .error e
    | .ok acc2 => foldE step fs acc2

/-- Maps an Except-valued function over a list, stopping at the first error. -/
def mapE {α β : Type} (g : α → Except DecodingError β) :
    List α → Except DecodingError (List β)
  | [] => .ok []
  | a :: as =>
    match g a with
    | .error e => .error e
    | .ok b =>
      match mapE g as with
      | .error e => .error e
      | .ok bs => .ok (b :: bs)

structure LabelAcc where
  name : Option (List Nat) := none
  value : Option (List Nat) := none

/-- One field of a LabelPair submessage; unrecognized fields are skipped. -/
def labelStep (acc : LabelAcc) (f : RawField) : Except DecodingError LabelAcc :=
  if f.1 = 1 then
    match f.2 with
    | .chunk bs => .ok { acc with name := some bs }
    | _ => .ok acc
  else if f.1 = 2 then
    match f.2 with
    | .chunk bs => .ok { acc with value := some bs }
    | _ => .ok acc
  else .ok acc

def labelFinish (acc : LabelAcc) : Except DecodingError LabelPair :=
  match acc.name, acc.value with
  | some n, some v => .ok ⟨n, v⟩
  | _, _ => .error .missingField

/-- Decodes a LabelPair submessage. -/
def parseLabelMsg (bs : List Nat) : Except DecodingError LabelPair :=
  match decodeMsg bs with
  | none => .error .malformed
  | some fs =>
    match foldE labelStep fs {} with
    | .error e => .error e
    | .ok acc => labelFinish acc

/-- One field of a Counter/Gauge/Untyped submessage. -/
def simpleStep (acc : Option Nat) (f : RawField) : Except DecodingError (Option Nat) :=
  if f.1 = 1 then
    match f.2 with
    | .f64 n => .ok (some n)
    | _ => .ok acc
  else .ok acc

/-- Decodes a Counter/Gauge/Untyped submessage to its double value. -/
def parseSimpleMsg (bs : List Nat) : Except DecodingError Nat :=
  match decodeMsg bs with
  | none => .error .malformed
  | some fs =>
    match foldE simpleStep fs none with
    | .error e => .error e
    | .ok (some v) => .ok v
    | .ok none => .error .missingField

structure QuantAcc where
  quantile : Option Nat := none
  value : Option Nat := none

def quantStep (acc : QuantAcc) (f : RawField) : Except DecodingError QuantAcc :=
  if f.1 = 1 then
    match f.2 with
    | .f64 n => .ok { acc with quantile := some n }
    | _ => .ok acc
  else if f.1 = 2 then
    match f.2 with
    | .f64 n => .ok { acc with value := some n }
    | _ => .ok acc
  else .ok acc

def quantFinish (acc : QuantAcc) : Except DecodingError Quantile :=
  match acc.quantile, acc.value with
  | some q, some v => .ok ⟨q, v⟩
  | _, _ => .error .missingField

/-- Decodes a Quantile submessage. -/
def parseQuantileMsg (bs : List Nat) : Except DecodingError Quantile :=
  match decodeMsg bs with
  | none => .error .malformed
  | some fs =>
    match foldE quantStep fs {} with
    | .error e => .error e
    | .ok acc => quantFinish acc

structure BucketAcc where
  cumulativeCount : Option Nat := none
  upperBound : Option Nat := none

def bucketStep (acc : BucketAcc) (f : RawField) : Except DecodingError BucketAcc :=
  if f.1 = 1 then
    match f.2 with
    | .vint n => .ok { acc with cumulativeCount := some n }
    | _ => .ok acc
  else if f.1 = 2 then
    match f.2 with
    | .f64 n => .ok { acc with upperBound := some n }
    | _ => .ok acc
  else .ok acc

def bucketFinish (acc : BucketAcc) : Except DecodingError Bucket :=
  match acc.cumulativeCount, acc.upperBound with
  | some c, some u => .ok ⟨c, u⟩
  | _, _ => .error .missingField

/-- Decodes a Bucket submessage. -/
def parseBucketMsg (bs : List Nat) : Except DecodingError Bucket :=
  match decodeMsg bs with
  | none => .error .malformed
  | some fs =>
    match foldE bucketStep fs {} with
    | .error e => .error e
    | .ok acc => bucketFinish acc

structure SumAcc where
  sampleCount : Option Nat := none
  sampleSum : Option Nat := none
  quantiles : List Quantile := []

def sumStep (acc : SumAcc) (f : RawField) : Except DecodingError SumAcc :=
  if f.1 = 1 then
    match f.2 with
    | .vint n => .ok { acc with sampleCount := some n }
    | _ => .ok acc
  else if f.1 = 2 then
    match f.2 with
    | .f64 n => .ok { acc with sampleSum := some n }
    | _ => .ok acc
  else if f.1 = 3 then
    match f.2 with
    | .chunk bs =>
      match parseQuantileMsg bs with
      | .error e => .error e
      | .ok q => .ok { acc with quantiles := acc.quantiles ++ [q] }
    | _ => .ok acc
  else .ok acc

def sumFinish (acc : SumAcc) : Except DecodingError SummaryData :=
  match acc.sampleCount, acc.sampleSum with
  | some c, some s => .ok ⟨c, s, acc.quantiles⟩
  | _, _ => .error .missingField

/-- Decodes a Summary submessage. -/
def parseSummaryMsg (bs : List Nat) : Except DecodingError SummaryData :=
  match decodeMsg bs with
  | none => .error .malformed
  | some fs =>
    match foldE sumStep fs {} with
    | .error e => .error e
    | .ok acc => sumFinish acc

structure HistAcc where
  sampleCount : Option Nat := none
  sampleSum : Option Nat := none
  buckets : List Bucket := []

def histStep (acc : HistAcc) (f : RawField) : Except DecodingError HistAcc :=
  if f.1 = 1 then
    match f.2 with
    | .vint n => .ok { acc with sampleCount := some n }
    | _ => .ok acc
  else if f.1 = 2 then
    match f.2 with
    | .f64 n => .ok { acc with sampleSum := some n }
    | _ => .ok acc
  else if f.1 = 3 then
    match f.2 with
    | .chunk bs =>
      match parseBucketMsg bs with
      | .error e => .error e
      | .ok b => .ok { acc with buckets := acc.buckets ++ [b] }
    | _ => .ok acc
  else .ok acc

def histFinish (acc : HistAcc) : Except DecodingError HistogramData :=
  match acc.sampleCount, acc.sampleSum with
  | some c, some s => .ok ⟨c, s, acc.buckets⟩
  | _, _ => .error .missingField

/-- Decodes a Histogram submessage. -/
def parseHistogramMsg (bs : List Nat) : Except DecodingError HistogramData :=
  match decodeMsg bs with
  | none => .error .malformed
  | some fs =>
    match foldE histStep fs {} with
    | .error e => .error e
    | .ok acc => histFinish acc

/-- A Metric's fields as decoded, before the family type is used to select
the payload. -/
structure RawMetric where
  labels : List LabelPair := []
  gauge : Option Nat := none
  counter : Option Nat := none
  summaryData : Option SummaryData := none
  untyped : Option Nat := none
  histogramData : Option HistogramData := none
  ts : Option Int := none
  deriving DecidableEq, Repr

/-- One field of a Metric submessage: label 1, gauge 2, counter 3, summary 4,
untyped 5, timestamp 6, histogram 7; unrecognized fields are skipped. -/
def metStep (acc : RawMetric) (f : RawField) : Except DecodingError RawMetric :=
  if f.1 = 1 then
    match f.2 with
    | .chunk bs =>
      match parseLabelMsg bs with
      | .error e => .error e
      | .ok lp => .ok { acc with labels := acc.labels ++ [lp] }
    | _ => .ok acc
  else if f.1 = 2 then
    match f.2 with
    | .chunk bs =>
      match parseSimpleMsg bs with
      | .error e => .error e
      | .ok v => .ok { acc with gauge := some v }
    | _ => .ok acc
  else if f.1 = 3 then
    match f.2 with
    | .chunk bs =>
      match parseSimpleMsg bs with
      | .error e => .error e
      | .ok v => .ok { acc with counter := some v }
    | _ => .ok acc
  else if f.1 = 4 then
    match f.2 with
    | .chunk bs =>
      match parseSummaryMsg bs with
      | .error e => .error e
      | .ok s => .ok { acc with summaryData := some s }
    | _ => .ok acc
  else if f.1 = 5 then
    match f.2 with
    | .chunk bs =>
      match parseSimpleMsg bs with
      | .error e => .error e
      | .ok v => .ok { acc with untyped := some v }
    | _ => .ok acc
  else if f.1 = 6 then
    match f.2 with
    | .vint n => .ok { acc with ts := some (int64OfNat n) }
    | _ => .ok acc
  else if f.1 = 7 then
    match f.2 with
    | .chunk bs =>
      match parseHistogramMsg bs with
      | .error e => .error e
      | .ok h => .ok { acc with histogramData := some h }
    | _ => .ok acc
  else .ok acc

/-- Decodes a Metric submessage into its raw decoded fields. -/
def parseMetricMsg (bs : List Nat) : Except DecodingError RawMetric :=
  match decodeMsg bs with
  | none => .error .malformed
  | some fs => foldE metStep fs {}

/-- Selects the payload demanded by the declared family type; fails with a
payload-shape mismatch when the wrong payload field (or none) is present. -/
def metricOfRaw (t : Nat) (rm : RawMetric) : Except DecodingError Metric :=
  if t = 0 then
    match rm.counter, rm.gauge, rm.summaryData, rm.untyped, rm.histogramData with
    | some v, none, none, none, none => .ok ⟨rm.labels, .value v, rm.ts⟩
    | _, _, _, _, _ => .error .payloadMismatch
  else if t = 1 then
    match rm.gauge, rm.counter, rm.summaryData, rm.untyped, rm.histogramData with
    | some v, none, none, none, none => .ok ⟨rm.labels, .value v, rm.ts⟩
    | _, _, _, _, _ => .error .payloadMismatch
  else if t = 2 then
    match rm.summaryData, rm.counter, rm.gauge, rm.untyped, rm.histogramData with
    | some s, none, none, none, none => .ok ⟨rm.labels, .summary s, rm.ts⟩
    | _, _, _, _, _ => .error .payloadMismatch
  else if t = 3 then
    match rm.untyped, rm.counter, rm.gauge, rm.summaryData, rm.histogramData with
    | some v, none, none, none, none => .ok ⟨rm.labels, .value v, rm.ts⟩
    | _, _, _, _, _ => .error .payloadMismatch
  else if t = 4 then
    match rm.histogramData, rm.counter, rm.gauge, rm.summaryData, rm.untyped with
    | some h, none, none, none, none => .ok ⟨rm.labels, .histogram h, rm.ts⟩
    | _, _, _, _, _ => .error .payloadMismatch
  else .error .unknownType

structure FamAcc where
  name : Option (List Nat) := none
  help : Option (List Nat) := none
  type_ : Option Nat := none
  mets : List RawMetric := []

/-- One top-level MetricFamily field: name 1, help 2, type 3, metric 4;
unrecognized fields are skipped. -/
def famStep (acc : FamAcc) (f : RawField) : Except DecodingError FamAcc :=
  if f.1 = 1 then
    match f.2 with
    | .chunk bs => .ok { acc with name := some bs }
    | _ => .ok acc
  else if f.1 = 2 then
    match f.2 with
    | .chunk bs => .ok { acc with help := some bs }
    | _ => .ok acc
  else if f.1 = 3 then
    match f.2 with
    | .vint n => .ok { acc with type_ := some n }
    | _ => .ok acc
  else if f.1 = 4 then
    match f.2 with
    | .chunk bs =>
      match parseMetricMsg bs with
      | .error e => .error e
      | .ok rm => .ok { acc with mets := acc.mets ++ [rm] }
    | _ => .ok acc
  else .ok acc

/-- Requires name, help and a recognized type, then checks every metric's
payload shape against the declared type. -/
def famFinish (acc : FamAcc) : Except DecodingError MetricFamily :=
  match acc.name, acc.help, acc.type_ with
  | some n, some h, some t =>
    if t ≤ 4 then
      match mapE (metricOfRaw t) acc.mets with
      | .error e => .error e
      | .ok ms => .ok ⟨n, h, t, ms⟩
    else .error .unknownType
  | _, _, _ => .error .missingField

/-- Interprets a parsed top-level field list as a MetricFamily. -/
def interpFamily (fs : List RawField) : Except DecodingError MetricFamily :=
  match foldE famStep fs {} with
  | .error e => .error e
  | .ok acc => famFinish acc

/-- Modelled from the spec: `decode(bytes) -> MetricFamily`, the inverse of
`encode`.  Fails with `DecodingError` on truncated input, trailing garbage,
an unrecognized type tag, or a payload shape mismatched with the declared
type; unknown fields are skipped, never an error. -/
def decode (l : List Nat) : Except DecodingError MetricFamily :=
  match parseVarint l with
  | none => .error .truncated
  | some (bodyLen, rest) =>
    if rest.length < bodyLen then .error .truncated
    else if bodyLen < rest.length then .error .trailingData
    else
      match decodeMsg rest with
      | none => .error .malformed
      | some fs => interpFamily fs

/-! ## Round-trip lemmas -/

instance exceptDecEq {e a : Type} [DecidableEq e] [DecidableEq a] :
    DecidableEq (Except e a) := fun x y =>
  match x, y with
  | .error u, .error v =>
    if h : u = v then .isTrue (congrArg Except.error h)
    else .isFalse (fun hc => h (by cases hc; rfl))
  | .ok u, .ok v =>
    if h : u = v then .isTrue (congrArg Except.ok h)
    else .isFalse (fun hc => h (by cases hc; rfl))
  | .error _, .ok _ => .isFalse Except.noConfusion
  | .ok _, .error _ => .isFalse Except.noConfusion

theorem foldE_append {σ : Type} (step : σ → RawField → Except DecodingError σ)
    (xs ys : List RawField) :
    ∀ acc, foldE step (xs ++ ys) acc =
      match foldE step xs acc with
      | .error e => .error e
      | .ok a => foldE step ys a := by
  induction xs with
  | nil => intro acc; rfl
  | cons f xs ih =>
    intro acc
    cases h : step acc f with
    | error e => simp [foldE, h]
    | ok a2 => simp [foldE, h, ih a2]

theorem foldE_map_ok {σ α : Type} (step : σ → RawField → Except DecodingError σ)
    (g : α → RawField) (upd : σ → α → σ) (as : List α)
    (h : ∀ acc a, a ∈ as → step acc (g a) = .ok (upd acc a)) :
    ∀ acc, foldE step (as.map g) acc = .ok (as.foldl upd acc) := by
  induction as with
  | nil => intro acc; rfl
  | cons a as ih =>
    intro acc
    simp only [List.map_cons, foldE, h acc a (by simp), List.foldl_cons]
    exact ih (fun acc2 b hb => h acc2 b (by simp [hb])) (upd acc a)

theorem parseLabelMsg_enc (lp : LabelPair) : parseLabelMsg (encLabelMsg lp) = .ok lp := by
  have hd : decodeMsg (encLabelMsg lp) = some (fieldsOfLabel lp) := by
    apply decodeMsg_encFields
    intro f hf
    simp only [fieldsOfLabel, List.mem_cons, List.mem_singleton] at hf
    rcases hf with h | h | h
    · rw [h]; rfl
    · rw [h]; rfl
    · cases h
  rw [parseLabelMsg, hd]
  rfl

theorem parseSimpleMsg_enc (v : Nat) (hv : v < 2 ^ 64) :
    parseSimpleMsg (encSimpleMsg v) = .ok v := by
  have hd : decodeMsg (encSimpleMsg v) = some (fieldsOfSimple v) := by
    apply decodeMsg_encFields
    intro f hf
    simp only [fieldsOfSimple, List.mem_singleton] at hf
    rw [hf]
    simpa [wfRawVal] using hv
  rw [parseSimpleMsg, hd]
  rfl

theorem parseQuantileMsg_enc (q : Quantile) (h1 : q.quantile < 2 ^ 64)
    (h2 : q.value < 2 ^ 64) : parseQuantileMsg (encQuantileMsg q) = .ok q := by
  have hd : decodeMsg (encQuantileMsg q) = some (fieldsOfQuantile q) := by
    apply decodeMsg_encFields
    intro f hf
    simp only [fieldsOfQuantile, List.mem_cons, List.mem_singleton] at hf
    rcases hf with h | h | h
    · rw [h]; simpa [wfRawVal] using h1
    · rw [h]; simpa [wfRawVal] using h2
    · cases h
  rw [parseQuantileMsg, hd]
  rfl

theorem parseBucketMsg_enc (b : Bucket) (h2 : b.upperBound < 2 ^ 64) :
    parseBucketMsg (encBucketMsg b) = .ok b := by
  have hd : decodeMsg (encBucketMsg b) = some (fieldsOfBucket b) := by
    apply decodeMsg_encFields
    intro f hf
    simp only [fieldsOfBucket, List.mem_cons, List.mem_singleton] at hf
    rcases hf with h | h | h
    · rw [h]; rfl
    · rw [h]; simpa [wfRawVal] using h2
    · cases h
  rw [parseBucketMsg, hd]
  rfl

theorem sumAcc_foldl (qs : List Quantile) :
    ∀ acc : SumAcc,
      qs.foldl (fun acc q => { acc with quantiles := acc.quantiles ++ [q] }) acc =
        { acc with quantiles := acc.quantiles ++ qs } := by
  induction qs with
  | nil => intro acc; simp
  | cons q qs ih =>
    intro acc
    simp only [List.foldl_cons, ih]
    simp

theorem parseSummaryMsg_enc (s : SummaryData) (hwf : wfPayload (.summary s) = true) :
    parseSummaryMsg (encSummaryMsg s) = .ok s := by
  simp only [wfPayload, Bool.and_eq_true, List.all_eq_true, decide_eq_true_eq] at hwf
  obtain ⟨⟨hc, hs⟩, hq⟩ := hwf
  have hd : decodeMsg (encSummaryMsg s) = some (fieldsOfSummary s) := by
    apply decodeMsg_encFields
    intro f hf
    simp only [fieldsOfSummary, List.mem_cons, List.mem_map] at hf
    rcases hf with h | h | ⟨q, hq2, h⟩
    · rw [h]; rfl
    · rw [h]; simpa [wfRawVal, wfF64] using hs
    · rw [← h]; rfl
  have hstep : ∀ (acc : SumAcc) (q : Quantile), q ∈ s.quantiles →
      sumStep acc (3, RawVal.chunk (encQuantileMsg q)) =
        .ok { acc with quantiles := acc.quantiles ++ [q] } := by
    intro acc q hq2
    have h1 := (hq q hq2).1
    have h2 := (hq q hq2).2
    simp only [wfF64, decide_eq_true_eq] at h1 h2
    simp [sumStep, parseQuantileMsg_enc q h1 h2]
  have hfold : foldE sumStep (fieldsOfSummary s) {} =
      .ok { sampleCount := some s.sampleCount, sampleSum := some s.sampleSum,
            quantiles := s.quantiles } := by
    simp only [fieldsOfSummary, foldE]
    show foldE sumStep
      (s.quantiles.map (fun q => (3, RawVal.chunk (encQuantileMsg q))))
      { sampleCount := some s.sampleCount, sampleSum := some s.sampleSum,
        quantiles := [] } =
      Except.ok { sampleCount := some s.sampleCount, sampleSum := some s.sampleSum,
                  quantiles := s.quantiles }
    rw [foldE_map_ok sumStep _ (fun acc q => { acc with quantiles := acc.quantiles ++ [q] })
      s.quantiles hstep, sumAcc_foldl]
    rfl
  rw [parseSummaryMsg, hd]
  show (match foldE sumStep (fieldsOfSummary s) {} with
    | Except.error e => Except.error e
    | Except.ok acc => sumFinish acc) = Except.ok s
  rw [hfold]
  rfl

theorem histAcc_foldl (bs : List Bucket) :
    ∀ acc : HistAcc,
      bs.foldl (fun acc b => { acc with buckets := acc.buckets ++ [b] }) acc =
        { acc with buckets := acc.buckets ++ bs } := by
  induction bs with
  | nil => intro acc; simp
  | cons b bs ih =>
    intro acc
    simp only [List.foldl_cons, ih]
    simp

theorem parseHistogramMsg_enc (h : HistogramData) (hwf : wfPayload (.histogram h) = true) :
    parseHistogramMsg (encHistogramMsg h) = .ok h := by
  simp only [wfPayload, Bool.and_eq_true, List.all_eq_true, decide_eq_true_eq] at hwf
  obtain ⟨⟨hc, hs⟩, hb⟩ := hwf
  have hd : decodeMsg (encHistogramMsg h) = some (fieldsOfHistogram h) := by
    apply decodeMsg_encFields
    intro f hf
    simp only [fieldsOfHistogram, List.mem_cons, List.mem_map] at hf
    rcases hf with h2 | h2 | ⟨b, hb2, h2⟩
    · rw [h2]; rfl
    · rw [h2]; simpa [wfRawVal, wfF64] using hs
    · rw [← h2]; rfl
  have hstep : ∀ (acc : HistAcc) (b : Bucket), b ∈ h.buckets →
      histStep acc (3, RawVal.chunk (encBucketMsg b)) =
        .ok { acc with buckets := acc.buckets ++ [b] } := by
    intro acc b hb2
    have h2 := (hb b hb2).2
    simp only [wfF64, decide_eq_true_eq] at h2
    simp [histStep, parseBucketMsg_enc b h2]
  have hfold : foldE histStep (fieldsOfHistogram h) {} =
      .ok { sampleCount := some h.sampleCount, sampleSum := some h.sampleSum,
            buckets := h.buckets } := by
    simp only [fieldsOfHistogram, foldE]
    show foldE histStep
      (h.buckets.map (fun b => (3, RawVal.chunk (encBucketMsg b))))
      { sampleCount := some h.sampleCount, sampleSum := some h.sampleSum,
        buckets := [] } =
      Except.ok { sampleCount := some h.sampleCount, sampleSum := some h.sampleSum,
                  buckets := h.buckets }
    rw [foldE_map_ok histStep _ (fun acc b => { acc with buckets := acc.buckets ++ [b] })
      h.buckets hstep, histAcc_foldl]
    rfl
  rw [parseHistogramMsg, hd]
  show (match foldE histStep (fieldsOfHistogram h) {} with
    | Except.error e => Except.error e
    | Except.ok acc => histFinish acc) = Except.ok h
  rw [hfold]
  rfl

theorem int64_roundtrip (t : Int) (h1 : -(2 ^ 63 : Int) ≤ t) (h2 : t < 2 ^ 63) :
    int64OfNat (natOfInt64 t) = t := by
  simp only [int64OfNat, natOfInt64]
  split_ifs with hc
  · omega
  · omega

/-- The raw decoded form of a metric encoded under family type `t`: the
payload occupies the field slot selected by `payloadFieldNum`. -/
def rawMetricOf (t : Nat) (mt : Metric) : RawMetric :=
  { labels := mt.labels
    gauge :=
      match mt.payload with
      | .value v => if t = 0 then none else if t = 1 then some v else none
      | _ => none
    counter :=
      match mt.payload with
      | .value v => if t = 0 then some v else none
      | _ => none
    summaryData :=
      match mt.payload with
      | .summary s => some s
      | _ => none
    untyped :=
      match mt.payload with
      | .value v => if t = 0 then none else if t = 1 then none else some v
      | _ => none
    histogramData :=
      match mt.payload with
      | .histogram h => some h
      | _ => none
    ts := mt.timestampMs }

theorem rawMetric_labels_foldl (ls : List LabelPair) :
    ∀ acc : RawMetric,
      ls.foldl (fun acc lp => { acc with labels := acc.labels ++ [lp] }) acc =
        { acc with labels := acc.labels ++ ls } := by
  induction ls with
  | nil => intro acc; simp
  | cons lp ls ih =>
    intro acc
    simp only [List.foldl_cons, ih]
    simp

theorem parseMetricMsg_enc (t : Nat) (mt : Metric) (hwf : wfMetric t mt = true) :
    parseMetricMsg (encMetricMsg t mt) = .ok (rawMetricOf t mt) := by
  simp only [wfMetric, Bool.and_eq_true] at hwf
  obtain ⟨⟨⟨hl, hm⟩, hp⟩, ht⟩ := hwf
  have hd : decodeMsg (encMetricMsg t mt) = some (fieldsOfMetric t mt) := by
    apply decodeMsg_encFields
    intro f hf
    simp only [fieldsOfMetric, List.append_assoc, List.mem_append, List.mem_map,
      List.mem_singleton] at hf
    rcases hf with ⟨lp, _, h⟩ | h | h
    · rw [← h]; rfl
    · rw [h]; rfl
    · cases hts : mt.timestampMs with
      | none => rw [hts] at h; simp [tsFields] at h
      | some tv => rw [hts] at h; simp only [tsFields, List.mem_singleton] at h; rw [h]; rfl
  rw [parseMetricMsg, hd]
  show foldE metStep (fieldsOfMetric t mt) {} = .ok (rawMetricOf t mt)
  rw [fieldsOfMetric, List.append_assoc, foldE_append]
  have hlfold : foldE metStep
      (mt.labels.map (fun lp => (1, RawVal.chunk (encLabelMsg lp)))) {} =
      .ok { labels := mt.labels } := by
    rw [foldE_map_ok metStep _ (fun acc lp => { acc with labels := acc.labels ++ [lp] })
      mt.labels (fun acc lp _ => by simp [metStep, parseLabelMsg_enc lp])]
    rw [rawMetric_labels_foldl]
    rfl
  rw [hlfold]
  show foldE metStep
    ((payloadFieldNum t mt.payload, RawVal.chunk (payloadChunk mt.payload)) ::
      tsFields mt.timestampMs) { labels := mt.labels } = _
  have htsfold : ∀ acc : RawMetric, acc.ts = none →
      foldE metStep (tsFields mt.timestampMs) acc =
        .ok { acc with ts := mt.timestampMs } := by
    intro acc hacc
    cases hts : mt.timestampMs with
    | none =>
      simp only [tsFields, foldE]
      rw [← hacc]
    | some tv =>
      rw [hts] at ht
      simp only [wfTs, Bool.and_eq_true, decide_eq_true_eq] at ht
      simp only [tsFields, foldE, metStep]
      norm_num
      rw [int64_roundtrip tv ht.1 ht.2]
  cases hpay : mt.payload with
  | value v =>
    have hv : v < 2 ^ 64 := by
      rw [hpay] at hp
      simpa [wfPayload, wfF64] using hp
    rw [hpay] at hm
    simp only [payloadMatches, Bool.or_eq_true, beq_iff_eq] at hm
    rcases hm with (h0 | h1) | h3
    · subst h0
      simp only [payloadFieldNum, payloadChunk, if_pos rfl, foldE, metStep]
      norm_num
      rw [parseSimpleMsg_enc v hv]
      show foldE metStep (tsFields mt.timestampMs) { labels := mt.labels, counter := some v } = _
      rw [htsfold { labels := mt.labels, counter := some v } rfl]
      simp [rawMetricOf, hpay]
    · subst h1
      simp only [payloadFieldNum, payloadChunk, foldE, metStep]
      norm_num
      rw [parseSimpleMsg_enc v hv]
      show foldE metStep (tsFields mt.timestampMs) { labels := mt.labels, gauge := some v } = _
      rw [htsfold { labels := mt.labels, gauge := some v } rfl]
      simp [rawMetricOf, hpay]
    · subst h3
      simp only [payloadFieldNum, payloadChunk, foldE, metStep]
      norm_num
      rw [parseSimpleMsg_enc v hv]
      show foldE metStep (tsFields mt.timestampMs) { labels := mt.labels, untyped := some v } = _
      rw [htsfold { labels := mt.labels, untyped := some v } rfl]
      simp [rawMetricOf, hpay]
  | summary s =>
    rw [hpay] at hp
    simp only [payloadFieldNum, payloadChunk, foldE, metStep]
    norm_num
    rw [parseSummaryMsg_enc s hp]
    show foldE metStep (tsFields mt.timestampMs) { labels := mt.labels, summaryData := some s } = _
    rw [htsfold { labels := mt.labels, summaryData := some s } rfl]
    simp [rawMetricOf, hpay]
  | histogram h =>
    rw [hpay] at hp
    simp only [payloadFieldNum, payloadChunk, foldE, metStep]
    norm_num
    rw [parseHistogramMsg_enc h hp]
    show foldE metStep (tsFields mt.timestampMs) { labels := mt.labels, histogramData := some h } = _
    rw [htsfold { labels := mt.labels, histogramData := some h } rfl]
    simp [rawMetricOf, hpay]

theorem metricOfRaw_rawMetricOf (t : Nat) (mt : Metric)
    (hm : payloadMatches t mt.payload = true) :
    metricOfRaw t (rawMetricOf t mt) = .ok mt := by
  obtain ⟨ls, p, ts⟩ := mt
  cases p with
  | value v =>
    simp only [payloadMatches, Bool.or_eq_true, beq_iff_eq] at hm
    rcases hm with (h0 | h1) | h3
    · subst h0; rfl
    · subst h1; rfl
    · subst h3; rfl
  | summary s =>
    simp only [payloadMatches, beq_iff_eq] at hm
    subst hm; rfl
  | histogram h =>
    simp only [payloadMatches, beq_iff_eq] at hm
    subst hm; rfl

theorem famAcc_mets_foldl (t : Nat) (mts : List Metric) :
    ∀ acc : FamAcc,
      mts.foldl (fun acc mt => { acc with mets := acc.mets ++ [rawMetricOf t mt] }) acc =
        { acc with mets := acc.mets ++ mts.map (rawMetricOf t) } := by
  induction mts with
  | nil => intro acc; simp
  | cons mt mts ih =>
    intro acc
    simp only [List.foldl_cons, ih]
    simp

theorem famFold_enc (m : MetricFamily)
    (hwf : ∀ mt ∈ m.metrics, wfMetric m.type_ mt = true) :
    foldE famStep (fieldsOfFamily m) {} =
      .ok { name := some m.name, help := some m.help, type_ := some m.type_,
            mets := m.metrics.map (rawMetricOf m.type_) } := by
  rw [fieldsOfFamily]
  show foldE famStep
    (m.metrics.map (fun mt => (4, RawVal.chunk (encMetricMsg m.type_ mt))))
    { name := some m.name, help := some m.help, type_ := some m.type_, mets := [] } = _
  rw [foldE_map_ok famStep _
    (fun acc mt => { acc with mets := acc.mets ++ [rawMetricOf m.type_ mt] }) m.metrics
    (fun acc mt hmt => by simp [famStep, parseMetricMsg_enc m.type_ mt (hwf mt hmt)])]
  rw [famAcc_mets_foldl]
  rfl

theorem mapE_metricOfRaw (t : Nat) (mts : List Metric)
    (hm : ∀ mt ∈ mts, payloadMatches t mt.payload = true) :
    mapE (metricOfRaw t) (mts.map (rawMetricOf t)) = .ok mts := by
  induction mts with
  | nil => rfl
  | cons mt mts ih =>
    simp only [List.map_cons, mapE, metricOfRaw_rawMetricOf t mt (hm mt (by simp))]
    rw [ih (fun x hx => hm x (by simp [hx]))]

theorem decode_wrapBody (body : List Nat) :
    decode (wrapBody body) =
      match decodeMsg body with
      | none => .error .malformed
      | some fs => interpFamily fs := by
  rw [decode, wrapBody, parseVarint_encodeVarint]
  simp

/-- Every top-level field of a family encoding is well-formed (they are all
chunks or varints). -/
theorem fieldsOfFamily_wfRaw (m : MetricFamily) :
    ∀ f ∈ fieldsOfFamily m, wfRawVal f.2 = true := by
  intro f hf
  simp only [fieldsOfFamily, List.mem_cons, List.mem_map] at hf
  rcases hf with h | h | h | ⟨mt, _, h⟩
  · rw [h]; rfl
  · rw [h]; rfl
  · rw [h]; rfl
  · rw [← h]; rfl

theorem decodeMsg_famBody (m : MetricFamily) :
    decodeMsg (encFamilyBody m) = some (fieldsOfFamily m) :=
  decodeMsg_encFields _ (fieldsOfFamily_wfRaw m)

/-- Interpreting the canonical top-level field list of a valid family yields
exactly that family. -/
theorem interpFamily_enc (m : MetricFamily) (hwf : wfFamily m = true) :
    interpFamily (fieldsOfFamily m) = .ok m := by
  simp only [wfFamily, Bool.and_eq_true, List.all_eq_true, decide_eq_true_eq] at hwf
  obtain ⟨⟨⟨ht4, hname⟩, hhelp⟩, hmets⟩ := hwf
  rw [interpFamily, famFold_enc m hmets]
  show famFinish { name := some m.name, help := some m.help, type_ := some m.type_,
                   mets := m.metrics.map (rawMetricOf m.type_) } = Except.ok m
  rw [famFinish]
  simp only [if_pos ht4]
  have hmatch : ∀ mt ∈ m.metrics, payloadMatches m.type_ mt.payload = true := by
    intro mt hmt
    have := hmets mt hmt
    simp only [wfMetric, Bool.and_eq_true] at this
    exact this.1.1.2
  rw [mapE_metricOfRaw m.type_ m.metrics hmatch]

/-- Core round-trip: decoding the canonical encoding of a valid family
returns exactly that family. -/
theorem roundtrip_core (m : MetricFamily) (hwf : wfFamily m = true) :
    decode (encodeBytes m) = .ok m := by
  rw [encodeBytes, decode_wrapBody, decodeMsg_famBody]
  exact interpFamily_enc m hwf

/-- The checked encoder succeeds on every valid family, with the canonical
bytes. -/
theorem encode_ok (m : MetricFamily) (hwf : wfFamily m = true) :
    encode m = .ok (encodeBytes m) := by
  simp only [wfFamily, Bool.and_eq_true, List.all_eq_true, decide_eq_true_eq] at hwf
  obtain ⟨⟨⟨ht4, hname⟩, hhelp⟩, hmets⟩ := hwf
  rw [encode, if_neg (by omega)]
  rw [if_pos]
  rw [List.all_eq_true]
  intro mt hmt
  have := hmets mt hmt
  simp only [wfMetric, Bool.and_eq_true] at this
  exact this.1.1.2

/-! ## Truncation -/

theorem decode_take_truncated (m : MetricFamily) (k : Nat) (hk0 : 0 < k)
    (hk : k < (encodeBytes m).length) :
    decode ((encodeBytes m).take k) = .error .truncated := by
  have hsplit : encodeBytes m =
      encodeVarint (encFamilyBody m).length ++ encFamilyBody m := rfl
  rw [hsplit, List.take_append_eq_append_take]
  by_cases hcase : k < (encodeVarint (encFamilyBody m).length).length
  · have hz : k - (encodeVarint (encFamilyBody m).length).length = 0 := by omega
    rw [hz, List.take_zero, List.append_nil, decode,
      parseVarint_take_encodeVarint (encFamilyBody m).length k hcase]
  · have hvk : (encodeVarint (encFamilyBody m).length).take k =
        encodeVarint (encFamilyBody m).length := List.take_of_length_le (by omega)
    rw [hvk, decode, parseVarint_encodeVarint]
    have hlenlt : ((encFamilyBody m).take
        (k - (encodeVarint (encFamilyBody m).length).length)).length <
        (encFamilyBody m).length := by
      rw [List.length_take]
      rw [hsplit, List.length_append] at hk
      omega
    simp only [hlenlt, if_true, if_pos]

/-! ## Unknown-field tolerance -/

/-- `Interleave xs ys zs`: `zs` is a merge of `xs` and `ys` that preserves
the relative order of each. -/
inductive Interleave {α : Type} : List α → List α → List α → Prop
  | nil : Interleave [] [] []
  | left {x : α} {xs ys zs : List α} :
      Interleave xs ys zs → Interleave (x :: xs) ys (x :: zs)
  | right {y : α} {xs ys zs : List α} :
      Interleave xs ys zs → Interleave xs (y :: ys) (y :: zs)

theorem interleave_nil_right {α : Type} (xs : List α) : Interleave xs [] xs := by
  induction xs with
  | nil => exact .nil
  | cons x xs ih => exact .left ih

theorem interleave_mem {α : Type} {xs ys zs : List α}
    (h : Interleave xs ys zs) : ∀ z ∈ zs, z ∈ xs ∨ z ∈ ys := by
  induction h with
  | nil => intro z hz; cases hz
  | left _ ih =>
    intro z hz
    rcases List.mem_cons.mp hz with h | h
    · exact Or.inl (by simp [h])
    · rcases ih z h with h2 | h2
      · exact Or.inl (by simp [h2])
      · exact Or.inr h2
  | right _ ih =>
    intro z hz
    rcases List.mem_cons.mp hz with h | h
    · exact Or.inr (by simp [h])
    · rcases ih z h with h2 | h2
      · exact Or.inl h2
      · exact Or.inr (by simp [h2])

/-- A top-level field number outside the recognized set {1, 2, 3, 4}. -/
def unknownTopField (f : RawField) : Prop :=
  f.1 ≠ 1 ∧ f.1 ≠ 2 ∧ f.1 ≠ 3 ∧ f.1 ≠ 4

instance (f : RawField) : Decidable (unknownTopField f) := by
  unfold unknownTopField
  infer_instance

theorem famStep_skips_unknown (acc : FamAcc) (f : RawField)
    (hu : unknownTopField f) : famStep acc f = .ok acc := by
  obtain ⟨h1, h2, h3, h4⟩ := hu
  rw [famStep, if_neg h1, if_neg h2, if_neg h3, if_neg h4]

theorem foldE_famStep_interleave {xs us zs : List RawField}
    (hi : Interleave xs us zs) (hu : ∀ u ∈ us, unknownTopField u) :
    ∀ acc, foldE famStep zs acc = foldE famStep xs acc := by
  induction hi with
  | nil => intro acc; rfl
  | @left x xs2 ys2 zs2 _ ih =>
    intro acc
    show foldE famStep (x :: zs2) acc = foldE famStep (x :: xs2) acc
    rw [foldE, foldE]
    cases famStep acc x with
    | error e => rfl
    | ok acc2 => exact ih hu acc2
  | @right y xs2 ys2 zs2 _ ih =>
    intro acc
    show foldE famStep (y :: zs2) acc = foldE famStep xs2 acc
    rw [foldE, famStep_skips_unknown acc y (hu y (by simp))]
    exact ih (fun u hu2 => hu u (by simp [hu2])) acc

/-- Decoding a family body with well-formed unknown fields interleaved at the
top level yields the same family as the canonical body. -/
theorem decode_interleaved (m : MetricFamily) (hwf : wfFamily m = true)
    {us zs : List RawField}
    (hu : ∀ u ∈ us, unknownTopField u ∧ wfRawVal u.2 = true)
    (hi : Interleave (fieldsOfFamily m) us zs) :
    decode (wrapBody (encFields zs)) = .ok m := by
  have hzwf : ∀ f ∈ zs, wfRawVal f.2 = true := by
    intro f hf
    rcases interleave_mem hi f hf with h | h
    · exact fieldsOfFamily_wfRaw m f h
    · exact (hu f h).2
  rw [decode_wrapBody, decodeMsg_encFields zs hzwf]
  show interpFamily zs = .ok m
  rw [interpFamily, foldE_famStep_interleave hi (fun u h2 => (hu u h2).1)]
  rw [← interpFamily]
  exact interpFamily_enc m hwf

/-! ## Optional-field omission and numeric constants -/

theorem encFields_append (xs ys : List RawField) :
    encFields (xs ++ ys) = encFields xs ++ encFields ys := by
  induction xs with
  | nil => rfl
  | cons f xs ih => simp [encFields, ih]

/-- Bit pattern of IEEE-754 double +infinity. -/
def posInfBits : Nat := 0x7ff0000000000000

/-- Bit pattern of IEEE-754 double -infinity. -/
def negInfBits : Nat := 0xfff0000000000000

/-- Whether a 64-bit pattern denotes an IEEE-754 double NaN: exponent field
all ones, mantissa nonzero. -/
def isNaNBits (n : Nat) : Bool :=
  decide (n < 2 ^ 64) && (n / 2 ^ 52 % 2 ^ 11 == 0x7ff) && (n % 2 ^ 52 != 0)

/-! ## The repository source: `client_model/setup.py`

The file is a setuptools manifest — one import and one `setup(...)` call —
embedded statement by statement. -/

inductive PyValue
  | str (s : String)
  | strList (ss : List String)
  | strDict (entries : List (String × String))
  deriving DecidableEq, Repr

inductive PyStmt
  | importFrom (module : String) (names : List String)
  | funcDef (name : String)
  | classDef (name : String)
  | call (fn : String) (kwargs : List (String × PyValue))
  deriving DecidableEq, Repr

/-- The statements of `client_model/setup.py`, in order. -/
def setupPy : List PyStmt :=
  [ .importFrom "setuptools" ["setup"],
    .call "setup"
      [ ("name", .str "elasticsearch_client_model"),
        ("version", .str "0.0.1"),
        ("author", .str "Matt T. Proud"),
        ("author_email", .str "matt.proud@gmail.com"),
        ("description", .str "Data model artifacts for the Prometheus client."),
        ("license", .str "Apache License 2.0"),
        ("url", .str "http://github.com/Schneizelw/elasticsearch/client_model"),
        ("packages", .strList
          ["elasticsearch", "elasticsearch/client", "elasticsearch/client/model"]),
        ("package_dir", .strDict [("", "python")]),
        ("requires", .strList ["protobuf(==2.4.1)"]),
        ("platforms", .str "Platform Independent"),
        ("classifiers", .strList
          ["Development Status :: 3 - Alpha",
           "Intended Audience :: Developers",
           "Intended Audience :: System Administrators",
           "License :: OSI Approved :: Apache Software License",
           "Operating System :: OS Independent",
           "Topic :: Software Development :: Testing",
           "Topic :: System :: Monitoring"]) ] ]

/-- The repository's source files and their embedded contents. -/
def repoSources : List (String × List PyStmt) := [("client_model/setup.py", setupPy)]

/-- Names a statement list defines (function or class definitions). -/
def definedNames : List PyStmt → List String
  | [] => []
  | .funcDef n :: rest => n :: definedNames rest
  | .classDef n :: rest => n :: definedNames rest
  | _ :: rest => definedNames rest

/-- A packaging-manifest statement: a setuptools import or a `setup` call. -/
def isPackagingStmt : PyStmt → Bool
  | .importFrom m _ => m == "setuptools"
  | .call fn _ => fn == "setup"
  | _ => false

/-- The keyword arguments of the `setup(...)` calls in a statement list. -/
def setupCallArgs (stmts : List PyStmt) : List (String × PyValue) :=
  (stmts.filterMap (fun st =>
    match st with
    | PyStmt.call fn kwargs => if fn = "setup" then some kwargs else none
    | _ => none)).flatten

/-- Looks up one keyword argument of the manifest's `setup` call. -/
def setupKwarg (k : String) : Option PyValue :=
  (setupCallArgs setupPy).lookup k

/-! ## Concrete scenario values -/

/-- The spec's counter scenario: family `http_requests_total` (ASCII bytes),
help `Total HTTP requests`, type COUNTER, one metric labeled
`method=GET` with value 42.0 (bit pattern 0x4045000000000000), no timestamp. -/
def counterScenario : MetricFamily :=
  { name := [104, 116, 116, 112, 95, 114, 101, 113, 117, 101, 115, 116, 115, 95,
             116, 111, 116, 97, 108],
    help := [84, 111, 116, 97, 108, 32, 72, 84, 84, 80, 32, 114, 101, 113, 117,
             101, 115, 116, 115],
    type_ := 0,
    metrics := [{ labels := [⟨[109, 101, 116, 104, 111, 100], [71, 69, 84]⟩],
                  payload := .value 0x4045000000000000, timestampMs := none }] }

/-- The spec's histogram scenario: buckets (0.1, 5), (1.0, 12), (+Inf, 20),
count 20, sum 13.37, using the IEEE-754 bit patterns of those doubles. -/
def histogramScenario : MetricFamily :=
  { name := [104], help := [104, 104], type_ := 4,
    metrics := [{ labels := [],
                  payload := .histogram
                    { sampleCount := 20, sampleSum := 0x402abd70a3d70a3d,
                      buckets := [⟨5, 0x3fb999999999999a⟩, ⟨12, 0x3ff0000000000000⟩,
                                  ⟨20, posInfBits⟩] },
                  timestampMs := none }] }

/-- A family whose type enum value 7 is outside the fixed set. -/
def badTypeFam : MetricFamily := { counterScenario with type_ := 7 }

/-- A COUNTER-typed metric wrongly carrying a Summary payload. -/
def mismatchMetric : Metric :=
  { labels := [], payload := .summary { sampleCount := 1, sampleSum := 0, quantiles := [] },
    timestampMs := none }

/-- A COUNTER-typed family whose metric carries a Summary payload. -/
def mismatchFam : MetricFamily := { counterScenario with metrics := [mismatchMetric] }

/-! ## Claims -/

/-- C1: for every valid MetricFamily `m`, `decode (encode m)` returns a
MetricFamily structurally equal to `m`, including the absence of optional
fields such as the timestamp. -/
theorem claim_c1_roundtrip (m : MetricFamily) (hwf : wfFamily m = true)
    (bs : List Nat) (henc : encode m = .ok bs) :
    decode bs = .ok m := by
  rw [encode_ok m hwf] at henc
  have hb : encodeBytes m = bs := by injection henc
  subst hb
  exact roundtrip_core m hwf

theorem claim_c1_roundtrip_witness :
    decode (encodeBytes counterScenario) = .ok counterScenario :=
  claim_c1_roundtrip counterScenario (by decide) (encodeBytes counterScenario) (by decide)

/-- C2: the repository's source is a single packaging manifest — it defines
no `encode`, `decode`, `MetricFamily`, `Metric` or `LabelPair`, and every
statement is packaging (a setuptools import or the `setup` call). -/
theorem claim_c2_manifest_only :
    repoSources = [("client_model/setup.py", setupPy)] ∧
    definedNames setupPy = [] ∧
    (∀ s ∈ ["encode", "decode", "MetricFamily", "Metric", "LabelPair"],
      s ∉ definedNames setupPy) ∧
    setupPy.all isPackagingStmt = true := by
  refine ⟨rfl, rfl, ?_, by decide⟩
  intro s _ hmem
  simp [setupPy, definedNames] at hmem

/-- C3: for a type outside the fixed enum set, or a payload whose shape does
not match the declared type, `encode` fails with an `EncodingError` rather
than coercing. -/
theorem claim_c3_encode_rejects (m : MetricFamily)
    (h : 5 ≤ m.type_ ∨ ∃ mt ∈ m.metrics, payloadMatches m.type_ mt.payload = false) :
    ∃ e : EncodingError, encode m = .error e := by
  by_cases h5 : 5 ≤ m.type_
  · exact ⟨.badType, by rw [encode, if_pos h5]⟩
  · rcases h with h5x | ⟨mt, hmem, hfalse⟩
    · exact absurd h5x h5
    · have hall : ¬ (m.metrics.all (fun mt => payloadMatches m.type_ mt.payload) = true) := by
        intro hall
        rw [List.all_eq_true] at hall
        have h2 := hall mt hmem
        rw [hfalse] at h2
        cases h2
      exact ⟨.payloadMismatch, by rw [encode, if_neg h5, if_neg hall]⟩

theorem claim_c3_encode_rejects_witness :
    (∃ e : EncodingError, encode badTypeFam = .error e) ∧
    (∃ e : EncodingError, encode mismatchFam = .error e) :=
  ⟨claim_c3_encode_rejects badTypeFam (Or.inl (by decide)),
   claim_c3_encode_rejects mismatchFam
     (Or.inr ⟨mismatchMetric, by decide, by decide⟩)⟩

/-- C4: every strict nonzero prefix of a valid family's encoding fails to
decode with a `DecodingError`; no partial value is ever returned. -/
theorem claim_c4_truncation (m : MetricFamily) (hwf : wfFamily m = true)
    (k : Nat) (hk0 : 0 < k) (hk : k < (encodeBytes m).length) :
    ∃ e : DecodingError, decode ((encodeBytes m).take k) = .error e :=
  ⟨.truncated, decode_take_truncated m k hk0 hk⟩

theorem claim_c4_truncation_witness :
    ∃ e : DecodingError, decode ((encodeBytes counterScenario).take 5) = .error e :=
  claim_c4_truncation counterScenario (by decide) 5 (by decide) (by decide)

/-- C5: unknown fields are ignored — interleaving well-formed unrecognized
fields among the valid top-level fields still decodes every recognized field
and never fails because of the unknown ones. -/
theorem claim_c5_unknown_fields (m : MetricFamily) (hwf : wfFamily m = true)
    (us zs : List RawField)
    (hu : ∀ u ∈ us, unknownTopField u ∧ wfRawVal u.2 = true)
    (hi : Interleave (fieldsOfFamily m) us zs) :
    decode (wrapBody (encFields zs)) = .ok m :=
  decode_interleaved m hwf hu hi

theorem claim_c5_unknown_fields_witness :
    decode (wrapBody (encFields
      ((99, RawVal.vint 7) :: fieldsOfFamily counterScenario))) = .ok counterScenario :=
  claim_c5_unknown_fields counterScenario (by decide)
    [(99, RawVal.vint 7)] ((99, RawVal.vint 7) :: fieldsOfFamily counterScenario)
    (by
      intro u hu
      simp only [List.mem_singleton] at hu
      subst hu
      exact ⟨by decide, rfl⟩)
    (Interleave.right (interleave_nil_right _))

/-- C6: `encode` and `decode` are pure functions — two invocations on
identical inputs yield identical outputs. -/
theorem claim_c6_deterministic (m1 m2 : MetricFamily) (l1 l2 : List Nat)
    (hm : m1 = m2) (hl : l1 = l2) :
    encode m1 = encode m2 ∧ decode l1 = decode l2 := by
  subst hm
  subst hl
  exact ⟨rfl, rfl⟩

theorem claim_c6_deterministic_witness :
    encode counterScenario = encode counterScenario ∧ decode [0] = decode [0] :=
  claim_c6_deterministic counterScenario counterScenario [0] [0] rfl rfl

/-- C7: an absent timestamp contributes no bytes to the encoding (whereas a
present zero timestamp adds a field), and absence round-trips as absence. -/
theorem claim_c7_absent_timestamp (m : MetricFamily) (hwf : wfFamily m = true)
    (hts : ∀ mt ∈ m.metrics, mt.timestampMs = none) :
    decode (encodeBytes m) = .ok m ∧
    (∀ m2, decode (encodeBytes m) = .ok m2 → ∀ mt2 ∈ m2.metrics, mt2.timestampMs = none) ∧
    tsFields none = [] ∧
    (∀ (t : Nat) (ls : List LabelPair) (p : Payload),
      (encMetricMsg t ⟨ls, p, some 0⟩).length = (encMetricMsg t ⟨ls, p, none⟩).length + 2) := by
  refine ⟨roundtrip_core m hwf, ?_, rfl, ?_⟩
  · intro m2 hm2
    rw [roundtrip_core m hwf] at hm2
    have hm : m = m2 := by injection hm2
    subst hm
    exact hts
  · intro t ls p
    have h2 : (encFields (tsFields (some (0 : Int)))).length = 2 := by decide
    have h0 : (encFields (tsFields (none : Option Int))).length = 0 := rfl
    simp only [encMetricMsg, fieldsOfMetric, encFields_append, List.length_append]
    rw [h2, h0]

theorem claim_c7_absent_timestamp_witness :
    decode (encodeBytes counterScenario) = .ok counterScenario ∧
    (∀ m2, decode (encodeBytes counterScenario) = .ok m2 →
      ∀ mt2 ∈ m2.metrics, mt2.timestampMs = none) ∧
    (encMetricMsg 0 ⟨[], .value 0, some 0⟩).length =
      (encMetricMsg 0 ⟨[], .value 0, none⟩).length + 2 := by
  have h := claim_c7_absent_timestamp counterScenario (by decide) (by decide)
  exact ⟨h.1, h.2.1, h.2.2.2 0 [] (.value 0)⟩

/-- C8: all numeric values are 64-bit patterns: ±infinity is representable,
every 64-bit pattern (hence every NaN, bit for bit) round-trips through the
wire scalar codec, and the histogram scenario with a +Inf upper bound
round-trips through encode/decode. -/
theorem claim_c8_float64 :
    (posInfBits < 2 ^ 64 ∧ negInfBits < 2 ^ 64) ∧
    (∀ (n : Nat) (r : List Nat), n < 2 ^ 64 → readF64 (toLE8 n ++ r) = some (n, r)) ∧
    (∀ (n : Nat) (r : List Nat), isNaNBits n = true → readF64 (toLE8 n ++ r) = some (n, r)) ∧
    decode (encodeBytes histogramScenario) = .ok histogramScenario := by
  refine ⟨⟨by decide, by decide⟩, fun n r h => readF64_toLE8 n r h, fun n r h => ?_,
    roundtrip_core histogramScenario (by decide)⟩
  have hn : n < 2 ^ 64 := by
    simp only [isNaNBits, Bool.and_eq_true, decide_eq_true_eq] at h
    exact h.1.1
  exact readF64_toLE8 n r hn

theorem claim_c8_float64_witness :
    readF64 (toLE8 posInfBits ++ []) = some (posInfBits, []) ∧
    readF64 (toLE8 0x7ff8000000000000 ++ []) = some (0x7ff8000000000000, []) :=
  ⟨claim_c8_float64.2.1 posInfBits [] (by decide),
   claim_c8_float64.2.2.1 0x7ff8000000000000 [] (by decide)⟩

/-- C9: bytes produced by this implementation's own `encode` re-encode
byte-identically after a decode. -/
theorem claim_c9_reencode (b : List Nat) (m : MetricFamily)
    (hwf : wfFamily m = true) (henc : encode m = .ok b) :
    ∃ m2, decode b = .ok m2 ∧ encode m2 = .ok b := by
  rw [encode_ok m hwf] at henc
  have hb : encodeBytes m = b := by injection henc
  subst hb
  exact ⟨m, roundtrip_core m hwf, encode_ok m hwf⟩

theorem claim_c9_reencode_witness :
    ∃ m2, decode (encodeBytes histogramScenario) = .ok m2 ∧
      encode m2 = .ok (encodeBytes histogramScenario) :=
  claim_c9_reencode (encodeBytes histogramScenario) histogramScenario (by decide) (by decide)

/-- C10: the manifest names the distribution `elasticsearch_client_model` at
version 0.0.1, pins exactly one dependency `protobuf(==2.4.1)`, and describes
the package as Prometheus client data-model artifacts despite the
elasticsearch naming. -/
theorem claim_c10_manifest_metadata :
    setupKwarg "name" = some (.str "elasticsearch_client_model") ∧
    setupKwarg "version" = some (.str "0.0.1") ∧
    setupKwarg "requires" = some (.strList ["protobuf(==2.4.1)"]) ∧
    setupKwarg "description" = some (.str "Data model artifacts for the Prometheus client.") ∧
    "elasticsearch_client_model".toList.take 13 = "elasticsearch".toList := by
  refine ⟨by decide, by decide, by decide, by decide, by decide⟩
